import Mathlib

/-!
Verification of the zingo-indexer request framer and wire codec.

The framer definitions embed src/zingo-rpc/src/nym/utils.rs; the codec
definitions embed src/zaino-fetch/src/jsonrpc/response.rs.  Helper types
that live elsewhere in the repository (CompactSize, read_bytes, ParseError,
the hex-encoded primitive wrappers) are modelled from the specification, as
noted on each definition.
-/

namespace ZingoIndexer

/-- Little-endian byte encoding of a natural number in `w` bytes
(the fixed-width payload that follows a compact-size escape byte). -/
def toLE : Nat → Nat → List Nat
  | 0, _ => []
  | w + 1, n => n % 256 :: toLE w (n / 256)

/-- Value of a little-endian byte list. -/
def fromLE : List Nat → Nat
  | [] => 0
  | b :: rest => b + 256 * fromLE rest

/-- Modelled from the spec: the serializing direction of `CompactSize`
(crate::blockcache::utils, not under src/).  "The variable-length integer
encoding follows a standard compact-size scheme (small values inline; larger
values use an escape prefix byte indicating 2/4/8-byte width)." -/
def compactSizeWrite (n : Nat) : List Nat :=
  if n < 253 then [n]
  else if n < 65536 then 253 :: toLE 2 n
  else if n < 4294967296 then 254 :: toLE 4 n
  else 255 :: toLE 8 n

/-- Reads a fixed-width little-endian payload of `w` bytes, failing when the
input is too short. -/
def compactSizeReadFixed (w : Nat) (rest : List Nat) : Option (Nat × List Nat) :=
  if rest.length < w then none
  else some (fromLE (rest.take w), rest.drop w)

/-- Modelled from the spec: `CompactSize::read` (crate::blockcache::utils,
not under src/).  Reads one compact-size value and returns it together with
the bytes remaining after it; fails when the input is too short. -/
def compactSizeRead (data : List Nat) : Option (Nat × List Nat) :=
  match data with
  | [] => none
  | b :: rest =>
    if b < 253 then some (b, rest)
    else if b = 253 then compactSizeReadFixed 2 rest
    else if b = 254 then compactSizeReadFixed 4 rest
    else compactSizeReadFixed 8 rest

/-- Modelled from the spec: the error taxonomy of the framer (`ParseError`
in crate::blockcache::utils, not under src/).  `LengthMismatch` is the
`ParseError::InvalidData("Incorrect request body size read.")` raised by
`check_nym_body`; `Encoding` is the UTF-8 error raised via the `From`
conversion in `read_nym_method`; `Truncated` is the read error produced by
`CompactSize::read` / `read_bytes` on insufficient input. -/
inductive FrameError where
  | LengthMismatch
  | Encoding
  | Truncated
deriving DecidableEq

/-- A UTF-8 continuation byte (0x80-0xBF). -/
def utf8Cont (b : Nat) : Bool := 128 ≤ b && b ≤ 191

/-- RFC 3629 UTF-8 validity of a byte sequence, the check performed by
`String::from_utf8` in `read_nym_method`. -/
def utf8Valid : List Nat → Bool
  | [] => true
  | b :: rest =>
    if b ≤ 127 then utf8Valid rest
    else if 194 ≤ b && b ≤ 223 then
      match rest with
      | c1 :: r => utf8Cont c1 && utf8Valid r
      | _ => false
    else if b = 224 then
      match rest with
      | c1 :: c2 :: r => (160 ≤ c1 && c1 ≤ 191) && utf8Cont c2 && utf8Valid r
      | _ => false
    else if (225 ≤ b && b ≤ 236) || b = 238 || b = 239 then
      match rest with
      | c1 :: c2 :: r => utf8Cont c1 && utf8Cont c2 && utf8Valid r
      | _ => false
    else if b = 237 then
      match rest with
      | c1 :: c2 :: r => (128 ≤ c1 && c1 ≤ 159) && utf8Cont c2 && utf8Valid r
      | _ => false
    else if b = 240 then
      match rest with
      | c1 :: c2 :: c3 :: r =>
        (144 ≤ c1 && c1 ≤ 191) && utf8Cont c2 && utf8Cont c3 && utf8Valid r
      | _ => false
    else if 241 ≤ b && b ≤ 243 then
      match rest with
      | c1 :: c2 :: c3 :: r => utf8Cont c1 && utf8Cont c2 && utf8Cont c3 && utf8Valid r
      | _ => false
    else if b = 244 then
      match rest with
      | c1 :: c2 :: c3 :: r =>
        (128 ≤ c1 && c1 ≤ 143) && utf8Cont c2 && utf8Cont c3 && utf8Valid r
      | _ => false
    else false

/-- Embedding of `read_nym_method` (src/zingo-rpc/src/nym/utils.rs:9-14):
reads a compact-size length, then that many bytes as a UTF-8 method name,
and returns the name together with the remaining input.  The returned
"String" is represented by its (valid UTF-8) byte list. -/
def read_nym_method (data : List Nat) : Except FrameError (List Nat × List Nat) :=
  match compactSizeRead data with
  | none => .error .Truncated
  | some (method_len, rest) =>
    if method_len ≤ rest.length then
      if utf8Valid (rest.take method_len) then
        .ok (rest.take method_len, rest.drop method_len)
      else .error .Encoding
    else .error .Truncated

/-- Embedding of `check_nym_body` (src/zingo-rpc/src/nym/utils.rs:17-26):
reads a compact-size body length and requires it to equal the number of
remaining bytes. -/
def check_nym_body (data : List Nat) : Except FrameError (List Nat) :=
  match compactSizeRead data with
  | none => .error .Truncated
  | some (body_len, rest) =>
    if body_len = rest.length then .ok rest
    else .error .LengthMismatch

/-- Embedding of `read_nym_request_data` (src/zingo-rpc/src/nym/utils.rs:31-37):
compact-size request id, then method name, then length-checked body. -/
def read_nym_request_data (data : List Nat) :
    Except FrameError (Nat × List Nat × List Nat) :=
  match compactSizeRead data with
  | none => .error .Truncated
  | some (id, rest) =>
    match read_nym_method rest with
    | .error e => .error e
    | .ok (method, rest2) =>
      match check_nym_body rest2 with
      | .error e => .error e
      | .ok body => .ok (id, method, body)

/-- Modelled from the spec: `serialize_request` (the serializing
direction of the framer is not under src/).  "Format: a variable-length unsigned integer
(request id) directly followed by a variable-length-prefixed UTF-8 method
name, directly followed by a variable-length-prefixed body"; "Framer is
symmetric". -/
def serialize_request (id : Nat) (method body : List Nat) : List Nat :=
  compactSizeWrite id ++
    (compactSizeWrite method.length ++ method) ++
    (compactSizeWrite body.length ++ body)

/-- Shallow model of a serde_json JSON value.  Numbers are modelled by their
integer value: every field the codec extracts goes through integer accessors,
and the claims only concern integer-valued numbers. -/
inductive Json where
  | null
  | bool (b : Bool)
  | num (n : Int)
  | str (s : String)
  | arr (elems : List Json)
  | obj (fields : List (String × Json))

/-- Field lookup in the field list of an object. -/
def jsonLookup : List (String × Json) → String → Option Json
  | [], _ => none
  | (k, w) :: rest, key => if k = key then some w else jsonLookup rest key

/-- serde_json `Value::get` on an object key: the value of the field when the value
is an object containing the key, `None` otherwise. -/
def Json.get : Json → String → Option Json
  | .obj fields, key => jsonLookup fields key
  | _, _ => none

/-- The serde_json index operator `v[key]`: the value of the field, or `Null` when
the value is not an object or lacks the key. -/
def Json.idx (v : Json) (key : String) : Json :=
  (v.get key).getD .null

/-- serde_json `Value::as_i64`: the value of an integer number representable
as a 64-bit signed integer. -/
def Json.asI64 : Json → Option Int
  | .num n => if -(2 ^ 63) ≤ n ∧ n < 2 ^ 63 then some n else none
  | _ => none

/-- serde_json `Value::as_u64`: the value of an integer number representable
as a 64-bit unsigned integer. -/
def Json.asU64 : Json → Option Int
  | .num n => if 0 ≤ n ∧ n < 2 ^ 64 then some n else none
  | _ => none

/-- serde_json `Value::as_str`. -/
def Json.asStr : Json → Option String
  | .str s => some s
  | _ => none

/-- serde_json `Value::as_array`. -/
def Json.asArray : Json → Option (List Json)
  | .arr elems => some elems
  | _ => none

/-- The Rust `as i32` cast of an i64 value: wrap-around in two-complement style. -/
def toI32 (n : Int) : Int := (n + 2 ^ 31) % 2 ^ 32 - 2 ^ 31

/-- The Rust `as u32` cast of a non-negative 64-bit value. -/
def toU32 (n : Int) : Int := n % 2 ^ 32

/-- Modelled from the spec: the error taxonomy of the wire codec (`DecodeError`,
whose definition is not under src/).  `MissingField` carries the serde
missing-field name, `MalformedHex` the hex failure on non-hex or odd-length
input, and `Custom` a serde custom error message. -/
inductive DecodeError where
  | MissingField (name : String)
  | MalformedHex
  | Custom (msg : String)
deriving DecidableEq

/-- Value of one hex digit, accepting 0-9, a-f and A-F as the hex crate does. -/
def hexDigitVal (c : Char) : Option Nat :=
  if 48 ≤ c.toNat ∧ c.toNat ≤ 57 then some (c.toNat - 48)
  else if 97 ≤ c.toNat ∧ c.toNat ≤ 102 then some (c.toNat - 87)
  else if 65 ≤ c.toNat ∧ c.toNat ≤ 70 then some (c.toNat - 55)
  else none

/-- Whether `c` is a hex digit. -/
def isHexDigit (c : Char) : Bool := (hexDigitVal c).isSome

/-- Whether `c` is a canonical (lowercase or decimal) hex digit, the alphabet the
encoder emits. -/
def isLowerHexDigit (c : Char) : Bool :=
  (48 ≤ c.toNat && c.toNat ≤ 57) || (97 ≤ c.toNat && c.toNat ≤ 102)

/-- Hex decoding of a character list, two digits per byte; fails on odd
length or a non-hex character. -/
def hexDecodeChars : List Char → Option (List Nat)
  | [] => some []
  | [_] => none
  | c1 :: c2 :: rest =>
    match hexDigitVal c1, hexDigitVal c2, hexDecodeChars rest with
    | some h, some l, some bytes => some ((16 * h + l) :: bytes)
    | _, _, _ => none

/-- The hex-string → bytes direction of the canonical binary-field mapping
(the decode of the hex crate, used by every `serde(with = "hex")` field in
response.rs). -/
def hexDecode (s : String) : Except DecodeError (List Nat) :=
  match hexDecodeChars s.toList with
  | some bytes => .ok bytes
  | none => .error .MalformedHex

/-- Lowercase hex digit character of a value below 16. -/
def hexDigitChar (n : Nat) : Char :=
  if n < 10 then Char.ofNat (48 + n) else Char.ofNat (87 + n)

/-- Character list of the lowercase hex encoding of a byte list. -/
def hexBytesChars (bytes : List Nat) : List Char :=
  bytes.flatMap fun b => [hexDigitChar (b / 16), hexDigitChar (b % 16)]

/-- The bytes → hex-string direction of the canonical binary-field mapping
(the encode of the hex crate: lowercase). -/
def hexEncode (bytes : List Nat) : String := String.mk (hexBytesChars bytes)

/-- Modelled from the spec: deserialization of a hex-encoded binary field
(`SerializedTransaction` / `SerializedBlock` in crate::primitives, not under
src/): a JSON string decoded through the canonical hex mapping. -/
def decodeHexField (v : Json) : Except DecodeError (List Nat) :=
  match v.asStr with
  | none => .error (.Custom "invalid type: expected a hex string")
  | some s => hexDecode s

/-- Embedding of `TxidsResponse` (response.rs:129-133). -/
structure TxidsResponse where
  transactions : List String
deriving DecidableEq

/-- Embedding of `TxidsResponse::deserialize` (response.rs:135-151): requires
a JSON array and keeps exactly the elements that are strings. -/
def decodeTxidsResponse (v : Json) : Except DecodeError TxidsResponse :=
  match v.asArray with
  | none => .error (.Custom "Expected the JSON to be an array")
  | some elems => .ok ⟨elems.filterMap Json.asStr⟩

/-- The string elements of a JSON array, in order: the specification side of
the C10 claim, compared against the decoder. -/
def stringElems : List Json → List String
  | [] => []
  | .str s :: rest => s :: stringElems rest
  | _ :: rest => stringElems rest

/-- Embedding of `CommitmentTreestate` (crate::primitives, shape as used by
response.rs:205-214): the hex-encoded final state string. -/
structure CommitmentTreestate where
  final_state : String
deriving DecidableEq

/-- Embedding of `SaplingTreestate` (shape as used by response.rs:205-209). -/
structure SaplingTreestate where
  commitments : CommitmentTreestate
deriving DecidableEq

/-- Embedding of `OrchardTreestate` (shape as used by response.rs:210-214). -/
structure OrchardTreestate where
  commitments : CommitmentTreestate
deriving DecidableEq

/-- Embedding of `GetTreestateResponse` (response.rs:157-175).  `height` holds
the value of the i32 field, `time` the value of the u32 field. -/
structure GetTreestateResponse where
  height : Int
  hash : String
  time : Int
  sapling : SaplingTreestate
  orchard : OrchardTreestate
deriving DecidableEq

/-- Embedding of `GetTreestateResponse::deserialize` (response.rs:177-217):
each required field is extracted in order and its absence reported as a serde
missing-field error with the name used in the source. -/
def decodeGetTreestate (v : Json) : Except DecodeError GetTreestateResponse :=
  match (v.idx "height").asI64 with
  | none => .error (.MissingField "height")
  | some height =>
    match (v.idx "hash").asStr with
    | none => .error (.MissingField "hash")
    | some hash =>
      match (v.idx "time").asI64 with
      | none => .error (.MissingField "time")
      | some time =>
        match (((v.idx "sapling").idx "commitments").idx "finalState").asStr with
        | none => .error (.MissingField "sapling final state")
        | some sap =>
          match (((v.idx "orchard").idx "commitments").idx "finalState").asStr with
          | none => .error (.MissingField "orchard final state")
          | some orch =>
            .ok ⟨toI32 height, hash, toU32 time, ⟨⟨sap⟩⟩, ⟨⟨orch⟩⟩⟩

/-- Whether the extraction performed for the named required treestate field
fails on `v`; used to state that a missing-field error names a field that is
really absent. -/
def treestateFieldAbsent (v : Json) (name : String) : Bool :=
  if name = "height" then ((v.idx "height").asI64).isNone
  else if name = "hash" then ((v.idx "hash").asStr).isNone
  else if name = "time" then ((v.idx "time").asI64).isNone
  else if name = "sapling final state" then
    ((((v.idx "sapling").idx "commitments").idx "finalState").asStr).isNone
  else if name = "orchard final state" then
    ((((v.idx "orchard").idx "commitments").idx "finalState").asStr).isNone
  else false

/-- Embedding of `GetTransactionResponse` (response.rs:222-238). -/
inductive GetTransactionResponse where
  | Raw (bytes : List Nat)
  | Object (hex : List Nat) (height : Int) (confirmations : Int)
deriving DecidableEq

/-- Embedding of `GetTransactionResponse::deserialize` (response.rs:240-277):
probe for height and confirmations (full object), then for hex and txid
(mempool object, with height -1 and confirmations 0), then fall back to the
raw hex form. -/
def decodeGetTransaction (v : Json) : Except DecodeError GetTransactionResponse :=
  if (v.get "height").isSome && (v.get "confirmations").isSome then
    match decodeHexField (v.idx "hex") with
    | .error e => .error e
    | .ok hex =>
      match (v.idx "height").asI64 with
      | none => .error (.Custom "Missing or invalid height")
      | some height =>
        match (v.idx "confirmations").asU64 with
        | none => .error (.Custom "Missing or invalid confirmations")
        | some confirmations =>
          .ok (.Object hex (toI32 height) (toU32 confirmations))
  else if (v.get "hex").isSome && (v.get "txid").isSome then
    match decodeHexField (v.idx "hex") with
    | .error e => .error e
    | .ok hex => .ok (.Object hex (-1) 0)
  else
    match decodeHexField v with
    | .error e => .error e
    | .ok bytes => .ok (.Raw bytes)

/-- Modelled from the spec: the commitment-tree-size summary
(`BlockCommitmentTreeSize` in crate::primitives, not under src/): sapling and
orchard note-commitment-tree sizes as u32 fields. -/
structure BlockCommitmentTreeSize where
  sapling : Int
  orchard : Int
deriving DecidableEq

/-- Embedding of `GetBlockResponse` (response.rs:89-117). -/
inductive GetBlockResponse where
  | Raw (bytes : List Nat)
  | Object (hash : List Nat) (confirmations : Int) (height : Option Int)
      (time : Option Int) (tx : List String) (trees : BlockCommitmentTreeSize)
deriving DecidableEq

/-- Modelled from the spec: deserialization of a `GetBlockHash`
(response.rs:76-78, hex of a 32-byte `BlockHash` from crate::primitives). -/
def decodeBlockHash (v : Json) : Option (List Nat) :=
  match v.asStr with
  | none => none
  | some s =>
    match hexDecode s with
    | .ok bytes => if bytes.length = 32 then some bytes else none
    | .error _ => none

/-- Modelled from the spec: deserialization of a `ChainHeight`
(crate::primitives, not under src/) — "height as non-negative integer". -/
def decodeChainHeight (v : Json) : Option Int :=
  match v.asU64 with
  | none => none
  | some n => if n < 2 ^ 32 then some n else none

/-- serde deserialization of an optional field: absent or null means none. -/
def optField (dec : Json → Option Int) : Option Json → Option (Option Int)
  | none => some none
  | some .null => some none
  | some w => (dec w).map some

/-- Modelled from the spec: deserialization of `BlockCommitmentTreeSize`
("commitment-tree-size summary"): an object with u32 sapling and orchard
fields. -/
def decodeTreeSize (v : Json) : Option BlockCommitmentTreeSize :=
  match v.get "sapling", v.get "orchard" with
  | some sv, some ov =>
    match sv.asU64, ov.asU64 with
    | some s, some o => if s < 2 ^ 32 ∧ o < 2 ^ 32 then some ⟨s, o⟩ else none
    | _, _ => none
  | _, _ => none

/-- The `Object` variant of the untagged `GetBlockResponse` deserialization
(response.rs:95-116): a serde-derived struct over an object input. -/
def decodeBlockObject (v : Json) : Option GetBlockResponse :=
  match v with
  | .obj _ =>
    match decodeBlockHash (v.idx "hash"), (v.idx "confirmations").asI64,
        optField decodeChainHeight (v.get "height"),
        optField Json.asI64 (v.get "time"),
        (v.idx "tx").asArray, decodeTreeSize (v.idx "trees") with
    | some hash, some conf, some height, some time, some txv, some trees =>
      match txv.mapM Json.asStr with
      | some tx => some (.Object hash conf height time tx trees)
      | none => none
    | _, _, _, _, _, _ => none
  | _ => none

/-- Embedding of the untagged `GetBlockResponse` deserialization
(response.rs:89-117): serde tries the `Raw` variant (a hex string) first,
then the `Object` variant, and errors when neither matches. -/
def decodeGetBlock (v : Json) : Except DecodeError GetBlockResponse :=
  match decodeHexField v with
  | .ok bytes => .ok (.Raw bytes)
  | .error _ =>
    match decodeBlockObject v with
    | some o => .ok o
    | none =>
      .error (.Custom "data did not match any variant of untagged enum GetBlockResponse")

theorem toLE_length (w n : Nat) : (toLE w n).length = w := by
  induction w generalizing n with
  | zero => rfl
  | succ w ih => simp [toLE, ih]

theorem fromLE_toLE (w n : Nat) (h : n < 256 ^ w) : fromLE (toLE w n) = n := by
  induction w generalizing n with
  | zero =>
    interval_cases n
    rfl
  | succ w ih =>
    have hdiv : n / 256 < 256 ^ w := by
      rw [Nat.div_lt_iff_lt_mul (by norm_num)]
      calc n < 256 ^ (w + 1) := h
        _ = 256 ^ w * 256 := by ring
    simp [toLE, fromLE, ih _ hdiv, Nat.mod_add_div]

theorem compactSizeReadFixed_append (w : Nat) (pay tail : List Nat)
    (hlen : pay.length = w) :
    compactSizeReadFixed w (pay ++ tail) = some (fromLE pay, tail) := by
  rw [compactSizeReadFixed, if_neg (by simp [hlen]),
    List.take_left' hlen, List.drop_left' hlen]

theorem compactSizeRead_write (n : Nat) (tail : List Nat) (h : n < 2 ^ 64) :
    compactSizeRead (compactSizeWrite n ++ tail) = some (n, tail) := by
  by_cases h1 : n < 253
  · simp [compactSizeWrite, compactSizeRead, h1]
  · by_cases h2 : n < 65536
    · rw [compactSizeWrite, if_neg h1, if_pos h2, List.cons_append,
        compactSizeRead, if_neg (by omega), if_pos rfl,
        compactSizeReadFixed_append 2 _ tail (toLE_length 2 n),
        fromLE_toLE 2 n (by norm_num; omega)]
    · by_cases h3 : n < 4294967296
      · rw [compactSizeWrite, if_neg h1, if_neg h2, if_pos h3, List.cons_append,
          compactSizeRead, if_neg (by omega), if_neg (by omega), if_pos rfl,
          compactSizeReadFixed_append 4 _ tail (toLE_length 4 n),
          fromLE_toLE 4 n (by norm_num; omega)]
      · rw [compactSizeWrite, if_neg h1, if_neg h2, if_neg h3, List.cons_append,
          compactSizeRead, if_neg (by omega), if_neg (by omega),
          if_neg (by omega),
          compactSizeReadFixed_append 8 _ tail (toLE_length 8 n),
          fromLE_toLE 8 n (by norm_num; omega)]

theorem read_nym_method_serialized (method rest : List Nat)
    (hm : method.length < 2 ^ 64) (hv : utf8Valid method = true) :
    read_nym_method (compactSizeWrite method.length ++ method ++ rest) =
      .ok (method, rest) := by
  rw [read_nym_method, List.append_assoc,
    compactSizeRead_write method.length (method ++ rest) hm]
  simp only [List.take_left, List.drop_left]
  rw [if_pos (by simp), if_pos hv]

theorem check_nym_body_serialized (body : List Nat) (hb : body.length < 2 ^ 64) :
    check_nym_body (compactSizeWrite body.length ++ body) = .ok body := by
  rw [check_nym_body, compactSizeRead_write body.length body hb]
  simp

theorem read_nym_request_data_serialized (id : Nat) (method body : List Nat)
    (hid : id < 2 ^ 64) (hm : method.length < 2 ^ 64) (hb : body.length < 2 ^ 64)
    (hv : utf8Valid method = true) :
    read_nym_request_data (serialize_request id method body) =
      .ok (id, method, body) := by
  rw [serialize_request, read_nym_request_data, List.append_assoc,
    compactSizeRead_write id _ hid]
  simp only [read_nym_method_serialized method _ hm hv,
    check_nym_body_serialized body hb]

theorem read_nym_method_ne_mismatch (data : List Nat) :
    read_nym_method data ≠ Except.error FrameError.LengthMismatch := by
  rw [read_nym_method]
  cases hcs : compactSizeRead data with
  | none => simp
  | some v =>
    obtain ⟨len, rest⟩ := v
    by_cases h1 : len ≤ rest.length
    · by_cases h2 : utf8Valid (rest.take len) = true
      · simp [h1, h2]
      · simp [h1, h2]
    · simp [h1]

/-- C1: for every valid combination of request id, method name, and body
(including the empty body and the maximum representable compact-size values),
parsing the bytes produced by serializing that request returns exactly the
same (id, method, body) triple. -/
theorem claim_C1_request_roundtrip (id : Nat) (method body : List Nat)
    (hid : id < 2 ^ 64) (hm : method.length < 2 ^ 64) (hb : body.length < 2 ^ 64)
    (hv : utf8Valid method = true) :
    read_nym_request_data (serialize_request id method body) =
      Except.ok (id, method, body) :=
  read_nym_request_data_serialized id method body hid hm hb hv

theorem claim_C1_request_roundtrip_witness :
    utf8Valid [97, 98] = true ∧
    read_nym_request_data (serialize_request 18446744073709551615 [97, 98] []) =
      Except.ok (18446744073709551615, [97, 98], []) :=
  ⟨rfl, claim_C1_request_roundtrip 18446744073709551615 [97, 98] []
    (by norm_num) (by decide) (by decide) rfl⟩

/-- C2: parsing fails with the length-mismatch error exactly when the
compact-size body length declared after the id and method fields differs from
the number of remaining bytes; the concrete instance with declared length 5
and 3 remaining bytes fails with it; and on success the returned body is the
remaining bytes, whose number equals the declared length. -/
theorem claim_C2_length_mismatch :
    (∀ data : List Nat,
      (read_nym_request_data data = Except.error FrameError.LengthMismatch ↔
        ∃ id rest method rest2 blen rest3,
          compactSizeRead data = some (id, rest) ∧
          read_nym_method rest = Except.ok (method, rest2) ∧
          compactSizeRead rest2 = some (blen, rest3) ∧
          blen ≠ rest3.length) ∧
      (∀ id method body,
        read_nym_request_data data = Except.ok (id, method, body) →
        ∃ rest rest2,
          compactSizeRead data = some (id, rest) ∧
          read_nym_method rest = Except.ok (method, rest2) ∧
          compactSizeRead rest2 = some (body.length, body))) ∧
    read_nym_request_data [7, 1, 97, 5, 1, 2, 3] =
      Except.error FrameError.LengthMismatch := by
  refine ⟨fun data => ⟨⟨fun hlm => ?_, fun hex => ?_⟩, fun id method body hok => ?_⟩, rfl⟩
  · rw [read_nym_request_data] at hlm
    split at hlm
    · exact absurd hlm (by simp)
    · rename_i id rest hcs
      split at hlm
      · rename_i e hme
        simp only [Except.error.injEq] at hlm
        subst hlm
        exact absurd hme (read_nym_method_ne_mismatch rest)
      · rename_i m rest2 hme
        cases hcs2 : compactSizeRead rest2 with
        | none =>
          rw [check_nym_body, hcs2] at hlm
          exact absurd hlm (by simp)
        | some v =>
          obtain ⟨blen, rest3⟩ := v
          by_cases hlen : blen = rest3.length
          · rw [check_nym_body, hcs2] at hlm
            simp [hlen] at hlm
          · exact ⟨id, rest, m, rest2, blen, rest3, hcs, hme, hcs2, hlen⟩
  · obtain ⟨id, rest, m, rest2, blen, rest3, h1, h2, h3, h4⟩ := hex
    rw [read_nym_request_data, h1]
    simp only [h2, check_nym_body, h3, if_neg h4]
  · rw [read_nym_request_data] at hok
    split at hok
    · exact absurd hok (by simp)
    · rename_i id0 rest hcs
      split at hok
      · exact absurd hok (by simp)
      · rename_i m rest2 hme
        cases hcs2 : compactSizeRead rest2 with
        | none =>
          rw [check_nym_body, hcs2] at hok
          exact absurd hok (by simp)
        | some v =>
          obtain ⟨blen, rest3⟩ := v
          by_cases hlen : blen = rest3.length
          · rw [check_nym_body, hcs2] at hok
            simp only [hlen, if_pos, Except.ok.injEq, Prod.mk.injEq] at hok
            obtain ⟨hid, hm2, hb2⟩ := hok
            subst hid
            subst hm2
            subst hb2
            exact ⟨rest, rest2, hcs, hme, by rw [hcs2, hlen]⟩
          · rw [check_nym_body, hcs2] at hok
            simp [hlen] at hok

theorem claim_C2_length_mismatch_witness :
    read_nym_request_data [7, 1, 97, 5, 1, 2, 3] =
      Except.error FrameError.LengthMismatch ∧
    (∃ rest rest2,
      compactSizeRead [7, 1, 97, 3, 1, 2, 3] = some (7, rest) ∧
      read_nym_method rest = Except.ok ([97], rest2) ∧
      compactSizeRead rest2 = some (3, [1, 2, 3])) :=
  ⟨claim_C2_length_mismatch.2,
    (claim_C2_length_mismatch.1 [7, 1, 97, 3, 1, 2, 3]).2 7 [97] [1, 2, 3] rfl⟩

/-- C3: when the id and the method length parse but the method-name bytes are
not valid UTF-8, parsing fails with the encoding error and returns no triple. -/
theorem claim_C3_invalid_utf8 (data : List Nat) (id mlen : Nat)
    (rest rest2 : List Nat)
    (h1 : compactSizeRead data = some (id, rest))
    (h2 : compactSizeRead rest = some (mlen, rest2))
    (h3 : mlen ≤ rest2.length)
    (h4 : utf8Valid (rest2.take mlen) = false) :
    read_nym_request_data data = Except.error FrameError.Encoding := by
  rw [read_nym_request_data, h1]
  simp only [read_nym_method, h2, if_pos h3, h4]
  simp

theorem claim_C3_invalid_utf8_witness :
    utf8Valid (List.take 1 [255, 0]) = false ∧
    read_nym_request_data [7, 1, 255, 0] = Except.error FrameError.Encoding :=
  ⟨rfl, claim_C3_invalid_utf8 [7, 1, 255, 0] 7 1 [1, 255, 0] [255, 0]
    rfl rfl (by decide) rfl⟩

/-- C4: a well-formed envelope is read in this exact order: compact-size id,
then compact-size-length-prefixed UTF-8 method name, then compact-size-length-
prefixed body, producing the (id, method, body) triple. -/
theorem claim_C4_envelope_field_order (id : Nat) (method body : List Nat)
    (hid : id < 2 ^ 64) (hm : method.length < 2 ^ 64) (hb : body.length < 2 ^ 64)
    (hv : utf8Valid method = true) :
    read_nym_request_data
      (compactSizeWrite id ++
        (compactSizeWrite method.length ++ method) ++
        (compactSizeWrite body.length ++ body)) =
      Except.ok (id, method, body) :=
  read_nym_request_data_serialized id method body hid hm hb hv

theorem filterMap_asStr_eq_stringElems (elems : List Json) :
    elems.filterMap Json.asStr = stringElems elems := by
  induction elems with
  | nil => rfl
  | cons e rest ih =>
    cases e <;> simp [stringElems, List.filterMap_cons, Json.asStr, ih]

theorem decodeGetTransaction_probe1 (v : Json)
    (hp : ((v.get "height").isSome && (v.get "confirmations").isSome) = true)
    (r : GetTransactionResponse)
    (hok : decodeGetTransaction v = Except.ok r) :
    ∃ hex n m, decodeHexField (v.idx "hex") = Except.ok hex ∧
      (v.idx "height").asI64 = some n ∧
      (v.idx "confirmations").asU64 = some m ∧
      r = GetTransactionResponse.Object hex (toI32 n) (toU32 m) := by
  rw [decodeGetTransaction, if_pos hp] at hok
  cases hhex : decodeHexField (v.idx "hex") with
  | error e => rw [hhex] at hok; simp at hok
  | ok hex =>
    rw [hhex] at hok
    cases hh : (v.idx "height").asI64 with
    | none => rw [hh] at hok; simp at hok
    | some n =>
      rw [hh] at hok
      cases hc : (v.idx "confirmations").asU64 with
      | none => rw [hc] at hok; simp at hok
      | some m =>
        rw [hc] at hok
        simp only [Except.ok.injEq] at hok
        exact ⟨hex, n, m, rfl, rfl, rfl, hok.symm⟩

theorem decodeGetTransaction_probe2 (v : Json)
    (hp1 : ((v.get "height").isSome && (v.get "confirmations").isSome) = false)
    (hp2 : ((v.get "hex").isSome && (v.get "txid").isSome) = true)
    (r : GetTransactionResponse)
    (hok : decodeGetTransaction v = Except.ok r) :
    ∃ hex, decodeHexField (v.idx "hex") = Except.ok hex ∧
      r = GetTransactionResponse.Object hex (-1) 0 := by
  rw [decodeGetTransaction, if_neg (by simp [hp1]), if_pos hp2] at hok
  cases hhex : decodeHexField (v.idx "hex") with
  | error e => rw [hhex] at hok; simp at hok
  | ok hex =>
    rw [hhex] at hok
    simp only [Except.ok.injEq] at hok
    exact ⟨hex, rfl, hok.symm⟩

theorem decodeGetTransaction_fallback (v : Json)
    (hp1 : ((v.get "height").isSome && (v.get "confirmations").isSome) = false)
    (hp2 : ((v.get "hex").isSome && (v.get "txid").isSome) = false)
    (r : GetTransactionResponse)
    (hok : decodeGetTransaction v = Except.ok r) :
    ∃ bytes, decodeHexField v = Except.ok bytes ∧
      r = GetTransactionResponse.Raw bytes := by
  rw [decodeGetTransaction, if_neg (by simp [hp1]), if_neg (by simp [hp2])] at hok
  cases hhex : decodeHexField v with
  | error e => rw [hhex] at hok; simp at hok
  | ok bytes =>
    rw [hhex] at hok
    simp only [Except.ok.injEq] at hok
    exact ⟨bytes, rfl, hok.symm⟩

theorem decodeBlockObject_not_raw (v : Json) (r : GetBlockResponse)
    (h : decodeBlockObject v = some r) (bytes : List Nat) :
    r ≠ GetBlockResponse.Raw bytes := by
  cases v with
  | obj fields =>
    rw [decodeBlockObject] at h
    split at h
    · split at h
      · simp only [Option.some.injEq] at h
        subst h
        simp
      · exact absurd h (by simp)
    · exact absurd h (by simp)
  | null => simp [decodeBlockObject] at h
  | bool b => simp [decodeBlockObject] at h
  | num n => simp [decodeBlockObject] at h
  | str s => simp [decodeBlockObject] at h
  | arr elems => simp [decodeBlockObject] at h

theorem decodeGetBlock_obj_not_raw (fields : List (String × Json)) (bytes : List Nat) :
    decodeGetBlock (Json.obj fields) ≠ Except.ok (GetBlockResponse.Raw bytes) := by
  intro hcon
  have hhex : decodeHexField (Json.obj fields) =
      Except.error (DecodeError.Custom "invalid type: expected a hex string") := rfl
  rw [decodeGetBlock, hhex] at hcon
  cases hbo : decodeBlockObject (Json.obj fields) with
  | none => rw [hbo] at hcon; simp at hcon
  | some o =>
    rw [hbo] at hcon
    simp only [Except.ok.injEq] at hcon
    exact decodeBlockObject_not_raw _ o hbo bytes hcon

theorem claim_C4_envelope_field_order_witness :
    utf8Valid [97] = true ∧
    read_nym_request_data
      (compactSizeWrite 300 ++
        (compactSizeWrite 1 ++ [97]) ++
        (compactSizeWrite 2 ++ [5, 6])) = Except.ok (300, [97], [5, 6]) :=
  ⟨rfl, claim_C4_envelope_field_order 300 [97] [5, 6]
    (by norm_num) (by decide) (by decide) rfl⟩

theorem hexDigitVal_hexDigitChar (d : Nat) (h : d < 16) :
    hexDigitVal (hexDigitChar d) = some d := by
  interval_cases d <;> rfl

theorem hexDigitChar_of_lower (c : Char) (h : isLowerHexDigit c = true) :
    ∃ d, hexDigitVal c = some d ∧ d < 16 ∧ hexDigitChar d = c := by
  rw [isLowerHexDigit] at h
  simp only [Bool.or_eq_true, Bool.and_eq_true, decide_eq_true_eq] at h
  rcases h with ⟨h1, h2⟩ | ⟨h1, h2⟩
  · refine ⟨c.toNat - 48, ?_, by omega, ?_⟩
    · rw [hexDigitVal, if_pos ⟨h1, h2⟩]
    · rw [hexDigitChar, if_pos (by omega)]
      have heq : 48 + (c.toNat - 48) = c.toNat := by omega
      rw [heq, Char.ofNat_toNat]
  · refine ⟨c.toNat - 87, ?_, by omega, ?_⟩
    · rw [hexDigitVal, if_neg (by omega), if_pos ⟨h1, h2⟩]
    · rw [hexDigitChar, if_neg (by omega)]
      have heq : 87 + (c.toNat - 87) = c.toNat := by omega
      rw [heq, Char.ofNat_toNat]

theorem hexDecodeChars_hexBytesChars (bytes : List Nat) (h : ∀ b ∈ bytes, b < 256) :
    hexDecodeChars (hexBytesChars bytes) = some bytes := by
  induction bytes with
  | nil => rfl
  | cons b rest ih =>
    have hb : b < 256 := h b (List.mem_cons_self b rest)
    have ih2 : hexDecodeChars (hexBytesChars rest) = some rest :=
      ih fun x hx => h x (List.mem_cons_of_mem _ hx)
    have h1 : b / 16 < 16 := by omega
    have h2 : b % 16 < 16 := Nat.mod_lt b (by norm_num)
    have hsplit : hexBytesChars (b :: rest) =
        hexDigitChar (b / 16) :: hexDigitChar (b % 16) :: hexBytesChars rest := by
      simp [hexBytesChars]
    rw [hsplit]
    simp only [hexDecodeChars, hexDigitVal_hexDigitChar _ h1,
      hexDigitVal_hexDigitChar _ h2, ih2]
    rw [Nat.div_add_mod]

theorem twoStepInduction {P : List Char → Prop} (h0 : P [])
    (h1 : ∀ c, P [c])
    (h2 : ∀ c1 c2 rest, P rest → P (c1 :: c2 :: rest)) :
    ∀ l, P l
  | [] => h0
  | [c] => h1 c
  | c1 :: c2 :: rest => h2 c1 c2 rest (twoStepInduction h0 h1 h2 rest)

theorem hexDecodeChars_lower_roundtrip (l : List Char) :
    l.all isLowerHexDigit = true → l.length % 2 = 0 →
    ∃ bytes, hexDecodeChars l = some bytes ∧ hexBytesChars bytes = l := by
  induction l using twoStepInduction with
  | h0 =>
    intro _ _
    exact ⟨[], rfl, rfl⟩
  | h1 c =>
    intro _ heven
    simp at heven
  | h2 c1 c2 rest ih =>
    intro hlow heven
    simp only [List.all_cons, Bool.and_eq_true] at hlow
    have heven2 : rest.length % 2 = 0 := by
      simp only [List.length_cons] at heven
      omega
    obtain ⟨d1, hv1, hd1, he1⟩ := hexDigitChar_of_lower c1 hlow.1
    obtain ⟨d2, hv2, hd2, he2⟩ := hexDigitChar_of_lower c2 hlow.2.1
    obtain ⟨bytes, hdec, henc⟩ := ih hlow.2.2 heven2
    refine ⟨(16 * d1 + d2) :: bytes, ?_, ?_⟩
    · simp only [hexDecodeChars, hv1, hv2, hdec]
    · have hdiv : (16 * d1 + d2) / 16 = d1 := by omega
      have hmod : (16 * d1 + d2) % 16 = d2 := by omega
      have hsplit : hexBytesChars ((16 * d1 + d2) :: bytes) =
          hexDigitChar ((16 * d1 + d2) / 16) ::
            hexDigitChar ((16 * d1 + d2) % 16) :: hexBytesChars bytes := by
        simp [hexBytesChars]
      rw [hsplit, hdiv, hmod, he1, he2, henc]

theorem hexDecodeChars_eq_none_iff (l : List Char) :
    hexDecodeChars l = none ↔
      (l.length % 2 ≠ 0 ∨ l.all isHexDigit = false) := by
  induction l using twoStepInduction with
  | h0 => simp [hexDecodeChars]
  | h1 c => simp [hexDecodeChars]
  | h2 c1 c2 rest ih =>
    cases hv1 : hexDigitVal c1 with
    | none =>
      have h1 : isHexDigit c1 = false := by simp [isHexDigit, hv1]
      simp [hexDecodeChars, hv1, List.all_cons, h1]
    | some d1 =>
      have h1 : isHexDigit c1 = true := by simp [isHexDigit, hv1]
      cases hv2 : hexDigitVal c2 with
      | none =>
        have h2 : isHexDigit c2 = false := by simp [isHexDigit, hv2]
        simp [hexDecodeChars, hv1, hv2, List.all_cons, h2]
      | some d2 =>
        have h2 : isHexDigit c2 = true := by simp [isHexDigit, hv2]
        cases hd : hexDecodeChars rest with
        | none =>
          have hL : hexDecodeChars (c1 :: c2 :: rest) = none := by
            simp only [hexDecodeChars, hv1, hv2, hd]
          rw [hL]
          refine iff_of_true rfl ?_
          rcases ih.mp hd with ho | ha
          · left
            simp only [List.length_cons]
            omega
          · right
            simp [List.all_cons, h1, h2, ha]
        | some bytes =>
          have hL : hexDecodeChars (c1 :: c2 :: rest) =
              some ((16 * d1 + d2) :: bytes) := by
            simp only [hexDecodeChars, hv1, hv2, hd]
          rw [hL]
          refine iff_of_false (by simp) ?_
          intro hrhs
          rcases hrhs with ho | ha
          · have hodd : rest.length % 2 ≠ 0 := by
              simp only [List.length_cons] at ho
              omega
            have hnone := ih.mpr (Or.inl hodd)
            rw [hd] at hnone
            exact absurd hnone (by simp)
          · have hrest : rest.all isHexDigit = false := by
              simp only [List.all_cons, h1, h2, Bool.true_and] at ha
              exact ha
            have hnone := ih.mpr (Or.inr hrest)
            rw [hd] at hnone
            exact absurd hnone (by simp)

/-- C7 fails as stated: the decoder also accepts uppercase hex, so
decode-then-encode does not restore every accepted hex string — "AB" decodes
to the byte 0xAB but re-encodes to "ab". -/
theorem claim_C7_hex_roundtrip_cex :
    hexDecode "AB" = Except.ok [171] ∧ hexEncode [171] ≠ "AB" :=
  ⟨rfl, by decide⟩

/-- C7 amended: the byte ↔ hex mapping is canonical on lowercase — decoding
then re-encoding restores every lowercase hex string, encoding then decoding
restores every byte list, and decoding fails with the malformed-hex error
exactly on odd length or a non-hex character. -/
theorem claim_C7_hex_canonical (s : String) (bytes : List Nat) :
    (s.toList.all isLowerHexDigit = true → s.toList.length % 2 = 0 →
      ∃ b, hexDecode s = Except.ok b ∧ hexEncode b = s) ∧
    ((∀ x ∈ bytes, x < 256) → hexDecode (hexEncode bytes) = Except.ok bytes) ∧
    (hexDecode s = Except.error DecodeError.MalformedHex ↔
      (s.toList.length % 2 ≠ 0 ∨ s.toList.all isHexDigit = false)) := by
  refine ⟨fun hlow heven => ?_, fun hb => ?_, ?_⟩
  · obtain ⟨b, hdec, henc⟩ := hexDecodeChars_lower_roundtrip s.toList hlow heven
    refine ⟨b, ?_, ?_⟩
    · rw [hexDecode, hdec]
    · rw [hexEncode, henc]
      rfl
  · have heq : hexDecodeChars (hexEncode bytes).toList = some bytes := by
      show hexDecodeChars (hexBytesChars bytes) = some bytes
      exact hexDecodeChars_hexBytesChars bytes hb
    rw [hexDecode, heq]
  · cases hd : hexDecodeChars s.toList with
    | none =>
      have hrhs := (hexDecodeChars_eq_none_iff s.toList).mp hd
      rw [hexDecode, hd]
      exact iff_of_true rfl hrhs
    | some b =>
      rw [hexDecode, hd]
      refine iff_of_false (by simp) ?_
      intro hrhs
      have hnone := (hexDecodeChars_eq_none_iff s.toList).mpr hrhs
      rw [hd] at hnone
      exact absurd hnone (by simp)

theorem claim_C7_hex_canonical_witness :
    hexDecode (hexEncode [171]) = Except.ok [171] ∧
    hexDecode "ab" = Except.ok [171] ∧ hexEncode [171] = "ab" := by
  refine ⟨(claim_C7_hex_canonical "" [171]).2.1 (by decide), ?_⟩
  obtain ⟨b, hdec, henc⟩ :=
    (claim_C7_hex_canonical "ab" []).1 (by decide) (by decide)
  have hb : b = [171] := by
    have := hdec
    rw [show hexDecode "ab" = Except.ok [171] from rfl] at this
    simpa using this.symm
  subst hb
  exact ⟨hdec, henc⟩

theorem toI32_eq_self (n : Int) (h0 : 0 ≤ n) (h1 : n < 2 ^ 31) : toI32 n = n := by
  rw [toI32]
  omega

theorem decodeGetTreestate_ok (v : Json) (r : GetTreestateResponse)
    (hok : decodeGetTreestate v = Except.ok r) :
    ∃ n, (v.idx "height").asI64 = some n ∧ r.height = toI32 n := by
  cases hh1 : (v.idx "height").asI64 with
  | none =>
    rw [decodeGetTreestate, hh1] at hok
    simp at hok
  | some n =>
    refine ⟨n, rfl, ?_⟩
    rw [decodeGetTreestate, hh1] at hok
    cases hh2 : (v.idx "hash").asStr with
    | none => rw [hh2] at hok; simp at hok
    | some hash =>
      rw [hh2] at hok
      cases hh3 : (v.idx "time").asI64 with
      | none => rw [hh3] at hok; simp at hok
      | some time =>
        rw [hh3] at hok
        cases hh4 : (((v.idx "sapling").idx "commitments").idx "finalState").asStr with
        | none => rw [hh4] at hok; simp at hok
        | some sap =>
          rw [hh4] at hok
          cases hh5 : (((v.idx "orchard").idx "commitments").idx "finalState").asStr with
          | none => rw [hh5] at hok; simp at hok
          | some orch =>
            rw [hh5] at hok
            simp only [Except.ok.injEq] at hok
            rw [← hok]

/-- C8 fails as stated: the mempool transaction form decodes successfully
with the sentinel height -1, which is negative. -/
theorem claim_C8_height_nonneg_cex :
    decodeGetTransaction (Json.obj [("hex", Json.str "aa"), ("txid", Json.str "00")]) =
      Except.ok (GetTransactionResponse.Object [170] (-1) 0) ∧
    ¬(0 ≤ (-1 : Int)) :=
  ⟨rfl, by decide⟩

/-- C8 amended: every decoded height field equals the declared JSON height
cast to 32 bits — hence is non-negative whenever the declared height lies in
[0, 2^31) — except the mempool transaction form, which uses the sentinel
height -1 with confirmations 0. -/
theorem claim_C8_height_sentinel (v : Json) :
    (∀ r, decodeGetTreestate v = Except.ok r →
      ∃ n, (v.idx "height").asI64 = some n ∧ r.height = toI32 n ∧
        (0 ≤ n → n < 2 ^ 31 → 0 ≤ r.height)) ∧
    (∀ hex h c,
      decodeGetTransaction v = Except.ok (GetTransactionResponse.Object hex h c) →
      (h = -1 ∧ c = 0) ∨
      ∃ n, (v.idx "height").asI64 = some n ∧ h = toI32 n ∧
        (0 ≤ n → n < 2 ^ 31 → 0 ≤ h)) := by
  constructor
  · intro r hok
    obtain ⟨n, hh, hr⟩ := decodeGetTreestate_ok v r hok
    refine ⟨n, hh, hr, fun h0 h1 => ?_⟩
    rw [hr, toI32_eq_self n h0 h1]
    exact h0
  · intro hex h c hok
    cases hp : ((v.get "height").isSome && (v.get "confirmations").isSome) with
    | true =>
      obtain ⟨hex0, n, m, -, hh, -, heq⟩ := decodeGetTransaction_probe1 v hp _ hok
      simp only [GetTransactionResponse.Object.injEq] at heq
      refine Or.inr ⟨n, hh, heq.2.1, fun h0 h1 => ?_⟩
      rw [heq.2.1, toI32_eq_self n h0 h1]
      exact h0
    | false =>
      cases hp2 : ((v.get "hex").isSome && (v.get "txid").isSome) with
      | true =>
        obtain ⟨hex0, -, heq⟩ := decodeGetTransaction_probe2 v hp hp2 _ hok
        simp only [GetTransactionResponse.Object.injEq] at heq
        exact Or.inl ⟨heq.2.1, heq.2.2⟩
      | false =>
        obtain ⟨bytes, -, heq⟩ := decodeGetTransaction_fallback v hp hp2 _ hok
        simp at heq

theorem claim_C8_height_sentinel_witness :
    (Json.obj [("hex", Json.str "aa"), ("txid", Json.str "00")]).get "hex" =
      some (Json.str "aa") ∧
    ((-1 : Int) = -1 ∧ (0 : Int) = 0) ∨
    ∃ n, ((Json.obj [("hex", Json.str "aa"), ("txid", Json.str "00")]).idx
        "height").asI64 = some n ∧ (-1 : Int) = toI32 n ∧
      (0 ≤ n → n < 2 ^ 31 → 0 ≤ (-1 : Int)) := by
  refine Or.inl ⟨rfl, ?_⟩
  have h := (claim_C8_height_sentinel
    (Json.obj [("hex", Json.str "aa"), ("txid", Json.str "00")])).2 [170] (-1) 0 rfl
  rcases h with ⟨h1, h2⟩ | ⟨n, hn, -, -⟩
  · exact ⟨h1, h2⟩
  · exact absurd hn (by simp [Json.idx, Json.get, jsonLookup, Json.asI64])

/-- C5: polymorphic response decoding probes object shapes in decreasing
specificity and returns the variant of the first matching candidate: the
transaction decoder commits to the full-object branch whenever height and
confirmations are present (never the raw form, and the decoded fields come
from the declared ones), commits to the partial mempool-object branch when
only hex and txid are present, falls back to the bare hex form only when
neither probe matches, and the untagged block decoder never decodes an object
input as the raw form. -/
theorem claim_C5_shape_specificity (v : Json) :
    (((v.get "height").isSome && (v.get "confirmations").isSome) = true →
      (∀ bytes, decodeGetTransaction v ≠
        Except.ok (GetTransactionResponse.Raw bytes)) ∧
      (∀ hex h c,
        decodeGetTransaction v = Except.ok (GetTransactionResponse.Object hex h c) →
        ∃ n m, (v.idx "height").asI64 = some n ∧ h = toI32 n ∧
          (v.idx "confirmations").asU64 = some m ∧ c = toU32 m)) ∧
    (((v.get "height").isSome && (v.get "confirmations").isSome) = false →
      ((v.get "hex").isSome && (v.get "txid").isSome) = true →
      ∀ r, decodeGetTransaction v = Except.ok r →
        ∃ hex, r = GetTransactionResponse.Object hex (-1) 0) ∧
    (((v.get "height").isSome && (v.get "confirmations").isSome) = false →
      ((v.get "hex").isSome && (v.get "txid").isSome) = false →
      ∀ r, decodeGetTransaction v = Except.ok r →
        ∃ bytes, r = GetTransactionResponse.Raw bytes) ∧
    (∀ fields bytes,
      decodeGetBlock (Json.obj fields) ≠ Except.ok (GetBlockResponse.Raw bytes)) := by
  refine ⟨fun hp => ⟨fun bytes hcon => ?_, fun hex h c hok => ?_⟩,
    fun hp1 hp2 r hok => ?_, fun hp1 hp2 r hok => ?_,
    fun fields bytes => decodeGetBlock_obj_not_raw fields bytes⟩
  · obtain ⟨hex, n, m, -, -, -, heq⟩ := decodeGetTransaction_probe1 v hp _ hcon
    simp at heq
  · obtain ⟨hex0, n, m, -, hh, hc, heq⟩ := decodeGetTransaction_probe1 v hp _ hok
    simp only [GetTransactionResponse.Object.injEq] at heq
    obtain ⟨-, h2, h3⟩ := heq
    exact ⟨n, m, hh, h2, hc, h3⟩
  · obtain ⟨hex, -, heq⟩ := decodeGetTransaction_probe2 v hp1 hp2 r hok
    exact ⟨hex, heq⟩
  · obtain ⟨bytes, -, heq⟩ := decodeGetTransaction_fallback v hp1 hp2 r hok
    exact ⟨bytes, heq⟩

theorem claim_C5_shape_specificity_witness :
    decodeGetTransaction
      (Json.obj [("height", Json.num 3), ("confirmations", Json.num 2),
        ("hex", Json.str "aa")]) ≠
      Except.ok (GetTransactionResponse.Raw [170]) :=
  ((claim_C5_shape_specificity
    (Json.obj [("height", Json.num 3), ("confirmations", Json.num 2),
      ("hex", Json.str "aa")])).1 rfl).1 [170]

/-- C6: when a required treestate field (height, hash, time, or the sapling
or orchard final state) is absent, decoding fails with a missing-field error
naming an absent field, and never returns a typed response. -/
theorem claim_C6_treestate_missing_field (v : Json)
    (h : (v.idx "height").asI64 = none ∨ (v.idx "hash").asStr = none ∨
      (v.idx "time").asI64 = none ∨
      (((v.idx "sapling").idx "commitments").idx "finalState").asStr = none ∨
      (((v.idx "orchard").idx "commitments").idx "finalState").asStr = none) :
    (∃ name, decodeGetTreestate v = Except.error (DecodeError.MissingField name) ∧
      treestateFieldAbsent v name = true) ∧
    ∀ r, decodeGetTreestate v ≠ Except.ok r := by
  have key : ∃ name,
      decodeGetTreestate v = Except.error (DecodeError.MissingField name) ∧
      treestateFieldAbsent v name = true := by
    cases hh1 : (v.idx "height").asI64 with
    | none =>
      refine ⟨"height", ?_, ?_⟩
      · rw [decodeGetTreestate, hh1]
      · simp [treestateFieldAbsent, hh1]
    | some height =>
      cases hh2 : (v.idx "hash").asStr with
      | none =>
        refine ⟨"hash", ?_, ?_⟩
        · rw [decodeGetTreestate, hh1, hh2]
        · simp [treestateFieldAbsent, hh2]
      | some hash =>
        cases hh3 : (v.idx "time").asI64 with
        | none =>
          refine ⟨"time", ?_, ?_⟩
          · rw [decodeGetTreestate, hh1, hh2, hh3]
          · simp [treestateFieldAbsent, hh3]
        | some time =>
          cases hh4 : (((v.idx "sapling").idx "commitments").idx "finalState").asStr with
          | none =>
            refine ⟨"sapling final state", ?_, ?_⟩
            · rw [decodeGetTreestate, hh1, hh2, hh3, hh4]
            · simp [treestateFieldAbsent, hh4]
          | some sap =>
            cases hh5 : (((v.idx "orchard").idx "commitments").idx "finalState").asStr with
            | none =>
              refine ⟨"orchard final state", ?_, ?_⟩
              · rw [decodeGetTreestate, hh1, hh2, hh3, hh4, hh5]
              · simp [treestateFieldAbsent, hh5]
            | some orch =>
              rcases h with h | h | h | h | h <;> simp_all
  refine ⟨key, fun r hr => ?_⟩
  obtain ⟨name, he, -⟩ := key
  rw [he] at hr
  exact absurd hr (by simp)

theorem claim_C6_treestate_missing_field_witness :
    ∃ name,
      decodeGetTreestate (Json.obj [("height", Json.num 5), ("hash", Json.str "00")]) =
        Except.error (DecodeError.MissingField name) ∧
      treestateFieldAbsent
        (Json.obj [("height", Json.num 5), ("hash", Json.str "00")]) name = true :=
  (claim_C6_treestate_missing_field
    (Json.obj [("height", Json.num 5), ("hash", Json.str "00")])
    (Or.inr (Or.inr (Or.inl rfl)))).1

/-- C9 fails as stated: this JSON object has both a hex field and a txid
field and lacks height and confirmations, yet decoding returns an error (the
hex field is not a hex string), not the mempool Object variant. -/
theorem claim_C9_mempool_defaults_cex :
    (Json.obj [("hex", Json.num 5), ("txid", Json.str "00")]).get "hex" =
      some (Json.num 5) ∧
    (Json.obj [("hex", Json.num 5), ("txid", Json.str "00")]).get "txid" =
      some (Json.str "00") ∧
    (Json.obj [("hex", Json.num 5), ("txid", Json.str "00")]).get "height" = none ∧
    decodeGetTransaction (Json.obj [("hex", Json.num 5), ("txid", Json.str "00")]) =
      Except.error (DecodeError.Custom "invalid type: expected a hex string") :=
  ⟨rfl, rfl, rfl, rfl⟩

/-- C9 amended: for every JSON object with hex and txid fields but lacking
height or confirmations, whose hex field holds a valid hex string, decoding
returns the Object variant with height -1 and confirmations 0; and no input
with hex and txid present but height or confirmations absent ever decodes to
the Raw variant. -/
theorem claim_C9_mempool_defaults :
    (∀ v s bytes, v.get "hex" = some (Json.str s) →
      (v.get "txid").isSome = true →
      (v.get "height" = none ∨ v.get "confirmations" = none) →
      hexDecode s = Except.ok bytes →
      decodeGetTransaction v =
        Except.ok (GetTransactionResponse.Object bytes (-1) 0)) ∧
    (∀ v, (v.get "hex").isSome = true → (v.get "txid").isSome = true →
      (v.get "height" = none ∨ v.get "confirmations" = none) →
      ∀ bytes, decodeGetTransaction v ≠
        Except.ok (GetTransactionResponse.Raw bytes)) := by
  have hprobe : ∀ v : Json,
      (v.get "height" = none ∨ v.get "confirmations" = none) →
      ((v.get "height").isSome && (v.get "confirmations").isSome) = false := by
    intro v h
    rcases h with h | h <;> simp [h]
  constructor
  · intro v s bytes hhex htxid hmiss hdec
    have hfield : decodeHexField (v.idx "hex") = Except.ok bytes := by
      rw [Json.idx, hhex]
      simp [decodeHexField, Json.asStr, hdec]
    rw [decodeGetTransaction, if_neg (by simp [hprobe v hmiss]),
      if_pos (by simp [hhex, htxid]), hfield]
  · intro v hhex htxid hmiss bytes hcon
    obtain ⟨hex0, -, heq⟩ := decodeGetTransaction_probe2 v (hprobe v hmiss)
      (by simp [hhex, htxid]) _ hcon
    simp at heq

theorem claim_C9_mempool_defaults_witness :
    decodeGetTransaction (Json.obj [("hex", Json.str "aa"), ("txid", Json.str "00")]) =
      Except.ok (GetTransactionResponse.Object [170] (-1) 0) :=
  claim_C9_mempool_defaults.1 _ "aa" [170] rfl rfl (Or.inl rfl) rfl

/-- C10: decoding the transaction-ids response succeeds on every JSON array
and returns exactly its string elements in their original order, silently
dropping the non-string elements, and fails exactly when the input is not an
array. -/
theorem claim_C10_txids_string_filter (v : Json) :
    (∀ elems, v = Json.arr elems →
      decodeTxidsResponse v = Except.ok ⟨stringElems elems⟩) ∧
    ((∀ elems, v ≠ Json.arr elems) →
      decodeTxidsResponse v =
        Except.error (DecodeError.Custom "Expected the JSON to be an array")) := by
  constructor
  · rintro elems rfl
    rw [decodeTxidsResponse]
    simp [Json.asArray, filterMap_asStr_eq_stringElems]
  · intro h
    cases v with
    | arr elems => exact absurd rfl (h elems)
    | null => rfl
    | bool b => rfl
    | num n => rfl
    | str s => rfl
    | obj fields => rfl

theorem claim_C10_txids_string_filter_witness :
    decodeTxidsResponse (Json.arr [Json.str "a", Json.num 3, Json.str "b"]) =
      Except.ok ⟨["a", "b"]⟩ :=
  (claim_C10_txids_string_filter (Json.arr [Json.str "a", Json.num 3, Json.str "b"])).1
    [Json.str "a", Json.num 3, Json.str "b"] rfl

end ZingoIndexer
